import Mathlib

/-!
# makechart.go: extraction, aggregation and series materialisation

A shallow embedding of the data path of `src/makechart.go`:

* the loop of `main` (lines 59-105) that splits the downloaded text into lines and
  fields and counts satellites per launch year and orbit class,
* the collection and sorting of the year keys (lines 107-116),
* `generateBarItems` and the part of `createBarChart` that fixes the X axis and the
  four series (lines 159-193).

Go strings are byte sequences, Go maps are finite mappings with unique keys and an
unspecified iteration order, Go `int` is a `w`-bit two's complement integer, and an
index out of range is a run-time panic that ends the program.  The network download,
the file creation and the HTML rendering are not modelled.
-/

set_option maxRecDepth 100000

namespace Makechart

/-! ## Strings -/

/-- A Go string: an immutable sequence of bytes. -/
abbrev GoString := List (Fin 256)

/-- The bytes of a string literal, in the UTF-8 encoding Go uses for source text. -/
def ofString (s : String) : GoString :=
  (s.data.map String.utf8EncodeChar).flatten.map (fun b => b.val)

/-- The byte of "\n". -/
def newline : Fin 256 := 10

/-- The byte of "\t". -/
def tab : Fin 256 := 9

/-- The byte of "/". -/
def slash : Fin 256 := 47

/-- Go `strings.Split(s, sep)` for a separator of one byte: the substrings of `s`
between the occurrences of `sep`; the empty string gives one empty substring. -/
def split (sep : Fin 256) : GoString → List GoString
  | [] => [[]]
  | c :: cs =>
    if c = sep then [] :: split sep cs
    else
      match split sep cs with
      | [] => [[c]]
      | h :: t => (c :: h) :: t

/-- Go `a < b` on strings: byte-wise lexicographic order, a proper initial segment
being smaller. -/
def strLess : GoString → GoString → Bool
  | [], [] => false
  | [], _ :: _ => true
  | _ :: _, [] => false
  | a :: as, b :: bs =>
    if a < b then true else if b < a then false else strLess as bs

/-- The order `a <= b` on strings, as a relation. -/
def StrLE (a b : GoString) : Prop := strLess b a = false

instance instDecidableStrLE : DecidableRel StrLE := fun a b => by
  unfold StrLE; infer_instance

/-- Go `sort.Strings(x)`: `x` rearranged into ascending order.  The library uses an
unstable in-place sort; for a total order on strings the ascending rearrangement is
unique (see `sortStrings_unique`), so it is computed here by insertion. -/
def sortStrings (x : List GoString) : List GoString := x.insertionSort StrLE

/-! ## Maps -/

/-- A Go `map[string]V`, kept as the list of its entries; the operations below never
store a key twice. -/
abbrev GoMap (V : Type) := List (GoString × V)

namespace GoMap

variable {V : Type}

/-- The comma-ok lookup `v, ok := m[k]`. -/
def lookup : GoMap V → GoString → Option V
  | [], _ => none
  | (k, v) :: m, x => if x = k then some v else lookup m x

/-- The index expression `m[k]`: the stored value, or the zero value `z` of `V` when
the key is absent. -/
def index (z : V) (m : GoMap V) (k : GoString) : V := (lookup m k).getD z

/-- The assignment `m[k] = v`: replaces the value of an existing key, adds a new entry
otherwise. -/
def assign : GoMap V → GoString → V → GoMap V
  | [], x, v => [(x, v)]
  | (k, u) :: m, x, v => if x = k then (k, v) :: m else (k, u) :: assign m x v

/-- The keys stored in the map. -/
def keys (m : GoMap V) : List GoString := m.map Prod.fst

/-- The sum of `f` over the stored values. -/
def sumBy (f : V → Int) (m : GoMap V) : Int := (m.map (fun e => f e.2)).sum

end GoMap

/-- The machine integer that a `w`-bit two's complement `int` holds after an arithmetic
result `n`: Go integer overflow wraps around. -/
def wrapInt (w : Nat) (n : Int) : Int := (n + 2 ^ (w - 1)) % 2 ^ w - 2 ^ (w - 1)

/-- The type `map[string]int` of the orbit counts of one year. -/
abbrev Counts := GoMap Int

/-- The type `map[string]map[string]int` of `yearsMap`. -/
abbrev YearsMap := GoMap Counts

/-- The expression `yearMap[y][o]`: both index steps give the zero value (the nil map,
then 0) on an absent key. -/
def cell (m : YearsMap) (y o : GoString) : Int := GoMap.index 0 (GoMap.index [] m y) o

/-! ## The loop of `main` -/

/-- One iteration of the `for index, line := range ...` loop of `main` (lines 62-105)
on the table `yearsMap`; `none` is the index-out-of-range panic.  `printHeader` is the
constant `false`, so the header branch only continues. -/
def loopBody (w : Nat) (yearsMap : YearsMap) (index : Nat) (line : GoString) :
    Option YearsMap :=
  let fields := split tab line
  if index = 0 then some yearsMap
  else if fields.length > 19 then
    match fields[8]?, fields[19]? with
    | some orbitType, some dateOfLaunch =>
      if dateOfLaunch ≠ [] then
        match (split slash dateOfLaunch)[2]? with
        | none => none
        | some year =>
          let yearsMap1 :=
            if (GoMap.lookup yearsMap year).isSome then yearsMap
            else GoMap.assign yearsMap year []
          let counts := GoMap.index [] yearsMap1 year
          some (GoMap.assign yearsMap1 year
            (GoMap.assign counts orbitType (wrapInt w (GoMap.index 0 counts orbitType + 1))))
      else some yearsMap
    | _, _ => none
  else some yearsMap

/-- The range loop over the lines, from position `index` on. -/
def rangeLoop (w : Nat) : Nat → List GoString → YearsMap → Option YearsMap
  | _, [], yearsMap => some yearsMap
  | index, line :: rest, yearsMap =>
    match loopBody w yearsMap index line with
    | none => none
    | some yearsMap1 => rangeLoop w (index + 1) rest yearsMap1

/-- Lines 59-105 of `main`: the table built from the downloaded text `data`, or `none`
when the loop panics. -/
def aggregate (w : Nat) (data : GoString) : Option YearsMap :=
  rangeLoop w 0 (split newline data) []

/-- An order in which `for year := range yearsMap` may visit the keys: each key once,
in any order. -/
def RangeOrder (yearsMap : YearsMap) (order : List GoString) : Prop :=
  order.Perm (GoMap.keys yearsMap)

instance instDecidableRangeOrder (yearsMap : YearsMap) (order : List GoString) :
    Decidable (RangeOrder yearsMap order) := by
  unfold RangeOrder; infer_instance

/-- Lines 107-116 of `main`: the keys appended to `yearValues` in the order the range
loop visits them, then sorted. -/
def yearValues (order : List GoString) : List GoString :=
  sortStrings (order.foldl (fun acc year => acc ++ [year]) [])

/-! ## The chart -/

/-- The one field of `opts.BarData` that the program sets. -/
structure BarData where
  /-- The field `Value`. -/
  value : Int
  deriving DecidableEq, Repr

/-- Function `generateBarItems` (lines 178-193). -/
def generateBarItems (years : List GoString) (yearMap : YearsMap)
    (seriesName : GoString) : List BarData :=
  years.foldl (fun dataPoints y => dataPoints ++ [BarData.mk (cell yearMap y seriesName)]) []

/-- What `createBarChart` hands to the chart: the X axis and the named series, in the
order they are added. -/
structure Bar where
  /-- The argument of `SetXAxis`. -/
  xAxis : List GoString
  /-- The arguments of the `AddSeries` calls. -/
  series : List (GoString × List BarData)
  deriving DecidableEq, Repr

/-- The constant `leo`. -/
def leo : GoString := ofString "LEO"

/-- The constant `meo`. -/
def meo : GoString := ofString "MEO"

/-- The constant `geo`. -/
def geo : GoString := ofString "GEO"

/-- The constant `elliptical`. -/
def elliptical : GoString := ofString "Elliptical"

/-- Function `createBarChart` (lines 136-174), without the title and legend options. -/
def createBarChart (years : List GoString) (yearMap : YearsMap) : Bar :=
  { xAxis := years
    series :=
      [(leo, generateBarItems years yearMap leo),
       (meo, generateBarItems years yearMap meo),
       (geo, generateBarItems years yearMap geo),
       (elliptical, generateBarItems years yearMap elliptical)] }

/-! ## Vocabulary of the specification -/

/-- The lines at index 1 and above of the text split at "\n". -/
def dataLines (data : GoString) : List GoString := (split newline data).tail

/-- Field `i` of a line split at "\t" (the empty string when there is none). -/
def field (line : GoString) (i : Nat) : GoString := (split tab line).getD i []

/-- A line with more than 19 fields and a non-empty field 19. -/
def Included (line : GoString) : Prop :=
  19 < (split tab line).length ∧ field line 19 ≠ []

instance instDecidableIncluded : DecidablePred Included := fun line => by
  unfold Included; infer_instance

/-- The components of field 19 split at "/". -/
def dateParts (line : GoString) : List GoString := split slash (field line 19)

/-- An included line whose date has fewer than three components. -/
def Malformed (line : GoString) : Prop := Included line ∧ (dateParts line).length < 3

instance instDecidableMalformed : DecidablePred Malformed := fun line => by
  unfold Malformed; infer_instance

/-- Component 2 of the date, when there is one. -/
def yearOf (line : GoString) : Option GoString := (dateParts line)[2]?

/-- Field 8, the orbit class. -/
def orbitOf (line : GoString) : GoString := field line 8

/-- The number of lines of a list that are included, have year `y` and orbit class
`o`. -/
def cellCountOf (lines : List GoString) (y o : GoString) : Nat :=
  lines.countP (fun line => Included line ∧ yearOf line = some y ∧ orbitOf line = o)

/-- The number of data lines that are included, have year `y` and orbit class `o`. -/
def cellCount (data : GoString) (y o : GoString) : Nat :=
  cellCountOf (dataLines data) y o

/-- The four series names of the chart. -/
def chartClasses : List GoString := [leo, meo, geo, elliptical]

/-- The number of data lines that are included. -/
def includedCount (data : GoString) : Nat :=
  (dataLines data).countP (fun line => Included line)

/-- The sum of all counts stored in the table. -/
def tableTotal (m : YearsMap) : Int :=
  GoMap.sumBy (fun counts => GoMap.sumBy (fun n => n) counts) m

/-- The (year, orbit class) pair that the loop body counts for a line, if any. -/
def observation (line : GoString) : Option (GoString × GoString) :=
  if Included line then (yearOf line).map (fun y => (y, orbitOf line)) else none

/-- The pairs counted for a list of lines, in order. -/
def observations (lines : List GoString) : List (GoString × GoString) :=
  lines.filterMap observation

/-- The table after one more satellite is counted for the pair `ob`. -/
def addObs (w : Nat) (m : YearsMap) (ob : GoString × GoString) : YearsMap :=
  GoMap.assign m ob.1
    (GoMap.assign (GoMap.index [] m ob.1) ob.2 (wrapInt w (cell m ob.1 ob.2 + 1)))

/-- A table that stores no key twice, in the outer map and in every inner map. -/
def UniqueKeys (m : YearsMap) : Prop :=
  (GoMap.keys m).Nodup ∧ ∀ y, (GoMap.keys (GoMap.index [] m y)).Nodup

/-- Two tables that are equal as mappings: the same years, under each year the same
orbit classes, and the same counts. -/
def SameMapping (m1 m2 : YearsMap) : Prop :=
  (∀ y, y ∈ GoMap.keys m1 ↔ y ∈ GoMap.keys m2) ∧
  (∀ y o, o ∈ GoMap.keys (GoMap.index [] m1 y) ↔ o ∈ GoMap.keys (GoMap.index [] m2 y)) ∧
  (∀ y o, cell m1 y o = cell m2 y o)

/-- Go `strings.Join(lines, "\n")`: the text whose lines are `lines`. -/
def joinLines : List GoString → GoString
  | [] => []
  | [l] => l
  | l :: l2 :: rest => l ++ newline :: joinLines (l2 :: rest)

/-- A string of exactly four ASCII decimal digits. -/
def FourDigits (y : GoString) : Prop :=
  y.length = 4 ∧ ∀ b ∈ y, 48 ≤ b.val ∧ b.val ≤ 57

instance instDecidableFourDigits : DecidablePred FourDigits := fun y => by
  unfold FourDigits; infer_instance

/-- The natural number that a string of decimal digits denotes. -/
def decimalValue (y : GoString) : Nat :=
  y.foldl (fun n b => 10 * n + (b.val - 48)) 0

/-- A list of strings that is strictly ascending in the byte-wise order. -/
def StrictlyAscending (l : List GoString) : Prop :=
  l.Pairwise (fun a b => strLess a b = true)

instance instDecidableStrictlyAscending : DecidablePred StrictlyAscending := fun l => by
  unfold StrictlyAscending; infer_instance

/-- Two runs of extraction and aggregation with the same outcome: both panic or both
succeed, and on success the tables are equal as mappings and, whatever orders the two
range loops visit the keys in, the sorted year lists are equal and so are the charts
made from them. -/
def SameOutcome (r1 r2 : Option YearsMap) : Prop :=
  (r1 = none ↔ r2 = none) ∧
  ∀ t1 t2, r1 = some t1 → r2 = some t2 →
    SameMapping t1 t2 ∧
    ∀ order1 order2, RangeOrder t1 order1 → RangeOrder t2 order2 →
      yearValues order1 = yearValues order2 ∧
      createBarChart (yearValues order1) t1 = createBarChart (yearValues order2) t2

/-- A row of 20 fields with the orbit class LEO and the launch date 01/01/2005. -/
def rowLeo2005 : GoString :=
  ofString "A\tB\tC\tD\tE\tF\tG\tH\tLEO\tI\tJ\tK\tL\tM\tN\tO\tP\tQ\tR\t01/01/2005"

/-- A row of 20 fields with the orbit class GEO and the launch date 03/04/2005. -/
def rowGeo2005 : GoString :=
  ofString "A\tB\tC\tD\tE\tF\tG\tH\tGEO\tI\tJ\tK\tL\tM\tN\tO\tP\tQ\tR\t03/04/2005"

/-- A row of 20 fields whose field 19 is the date 2005 without any "/". -/
def rowBadDate : GoString :=
  ofString "A\tB\tC\tD\tE\tF\tG\tH\tLEO\tI\tJ\tK\tL\tM\tN\tO\tP\tQ\tR\t2005"

/-- A row of 15 fields. -/
def rowShort : GoString :=
  ofString "A\tB\tC\tD\tE\tF\tG\tH\tLEO\tI\tJ\tK\tL\tM\tN"

/-- A row of 20 fields whose field 19 is the empty string. -/
def rowNoDate : GoString :=
  ofString "A\tB\tC\tD\tE\tF\tG\tH\tLEO\tI\tJ\tK\tL\tM\tN\tO\tP\tQ\tR\t"

/-- A row of 20 fields with the orbit class "LEO " (a trailing space) and the launch
date 05/06/2005. -/
def rowLeoSpace2005 : GoString :=
  ofString "A\tB\tC\tD\tE\tF\tG\tH\tLEO \tI\tJ\tK\tL\tM\tN\tO\tP\tQ\tR\t05/06/2005"

/-- A row of 20 fields with the orbit class MEO and the launch date 07/08/1999. -/
def rowMeo1999 : GoString :=
  ofString "A\tB\tC\tD\tE\tF\tG\tH\tMEO\tI\tJ\tK\tL\tM\tN\tO\tP\tQ\tR\t07/08/1999"

/-- A text with a header line and three rows that are empty but for the orbit class and
the date: LEO on 1/1/2005, GEO on 1/1/1999, GEO on 2/1/2005. -/
def twoYearData : GoString :=
  ofString "h\n\t\t\t\t\t\t\t\tLEO\t\t\t\t\t\t\t\t\t\t\t1/1/2005\n\t\t\t\t\t\t\t\tGEO\t\t\t\t\t\t\t\t\t\t\t1/1/1999\n\t\t\t\t\t\t\t\tGEO\t\t\t\t\t\t\t\t\t\t\t2/1/2005"

/-- A text with a header line and three rows: LEO in 2005, "LEO " in 2005, MEO in
1999. -/
def spacedData : GoString :=
  joinLines [ofString "Name\tOrbit", rowLeo2005, rowLeoSpace2005, rowMeo1999]

/-- The text `spacedData` with its three rows in another order. -/
def permutedData : GoString :=
  joinLines [ofString "Name\tOrbit", rowMeo1999, rowLeoSpace2005, rowLeo2005]

/-- The example of the specification: a header line and two rows of 20 fields. -/
def exampleData : GoString :=
  ofString
    "Name\tOrbit\nA\tB\tC\tD\tE\tF\tG\tH\tLEO\tI\tJ\tK\tL\tM\tN\tO\tP\tQ\tR\t01/01/2005\nA\tB\tC\tD\tE\tF\tG\tH\tGEO\tI\tJ\tK\tL\tM\tN\tO\tP\tQ\tR\t03/04/2005"

/-! ## Splitting -/

theorem split_ne_nil (sep : Fin 256) (s : GoString) : split sep s ≠ [] := by
  induction s with
  | nil => simp [split]
  | cons c cs ih =>
    unfold split
    split_ifs
    · simp
    · split <;> simp

theorem length_split (sep : Fin 256) (s : GoString) :
    (split sep s).length = s.count sep + 1 := by
  induction s with
  | nil => simp [split]
  | cons c cs ih =>
    unfold split
    by_cases h : c = sep
    · subst h
      simp [ih]
    · rw [if_neg h, List.count_cons_of_ne (Ne.symm h)]
      rw [← ih]
      split
      · next h0 => exact absurd h0 (split_ne_nil sep cs)
      · next h0 => simp [h0]

theorem split_eq_head_cons_dataLines (data : GoString) :
    ∃ header, split newline data = header :: dataLines data := by
  unfold dataLines
  cases h : split newline data with
  | nil => exact absurd h (split_ne_nil _ _)
  | cons a l => exact ⟨a, rfl⟩

theorem length_dataLines (data : GoString) :
    (dataLines data).length = data.count newline := by
  unfold dataLines
  simp [length_split]

theorem length_dataLines_le (data : GoString) : (dataLines data).length ≤ data.length := by
  rw [length_dataLines]
  exact List.count_le_length _ _

/-! ## Maps -/

namespace GoMap

variable {V : Type}

theorem lookup_assign (m : GoMap V) (k : GoString) (v : V) (x : GoString) :
    lookup (assign m k v) x = if x = k then some v else lookup m x := by
  induction m with
  | nil => simp [assign, lookup]
  | cons e m ih =>
    obtain ⟨k0, u⟩ := e
    unfold assign
    by_cases hk : k = k0
    · subst hk
      by_cases hx : x = k <;> simp [lookup, hx]
    · rw [if_neg hk]
      by_cases hx : x = k0
      · subst hx
        have : ¬ x = k := fun h => hk h.symm
        simp [lookup, this]
      · simp [lookup, hx, ih]

theorem index_assign (z : V) (m : GoMap V) (k : GoString) (v : V) (x : GoString) :
    index z (assign m k v) x = if x = k then v else index z m x := by
  unfold index
  rw [lookup_assign]
  split_ifs <;> rfl

theorem mem_keys_iff (m : GoMap V) (x : GoString) :
    x ∈ keys m ↔ (lookup m x).isSome = true := by
  induction m with
  | nil => simp [keys, lookup]
  | cons e m ih =>
    obtain ⟨k0, u⟩ := e
    by_cases hx : x = k0
    · simp [keys, lookup, hx]
    · have ih2 : x ∈ List.map Prod.fst m ↔ (lookup m x).isSome = true := ih
      simp [keys, lookup, hx, ih2]

theorem mem_keys_assign (m : GoMap V) (k : GoString) (v : V) (x : GoString) :
    x ∈ keys (assign m k v) ↔ x = k ∨ x ∈ keys m := by
  rw [mem_keys_iff, mem_keys_iff, lookup_assign]
  by_cases hx : x = k <;> simp [hx]

theorem keys_assign (m : GoMap V) (k : GoString) (v : V) :
    keys (assign m k v) = if k ∈ keys m then keys m else keys m ++ [k] := by
  induction m with
  | nil => simp [assign, keys]
  | cons e m ih =>
    obtain ⟨k0, u⟩ := e
    unfold assign
    by_cases hk : k = k0
    · subst hk
      simp [keys]
    · have ih2 : List.map Prod.fst (assign m k v) =
          if k ∈ List.map Prod.fst m then List.map Prod.fst m else List.map Prod.fst m ++ [k] := ih
      rw [if_neg hk]
      simp only [keys, List.map_cons, List.mem_cons, hk, false_or, ih2]
      split_ifs <;> simp

theorem nodup_keys_assign (m : GoMap V) (k : GoString) (v : V) (h : (keys m).Nodup) :
    (keys (assign m k v)).Nodup := by
  rw [keys_assign]
  split_ifs with hk
  · exact h
  · rw [List.nodup_append]
    refine ⟨h, List.nodup_singleton k, ?_⟩
    intro a ha hb
    simp only [List.mem_singleton] at hb
    exact hk (hb ▸ ha)

theorem sumBy_assign (f : V → Int) (m : GoMap V) (k : GoString) (v : V) :
    sumBy f (assign m k v) = sumBy f m + f v - ((lookup m k).map f).getD 0 := by
  induction m with
  | nil => simp [assign, sumBy, lookup]
  | cons e m ih =>
    obtain ⟨k0, u⟩ := e
    unfold assign
    by_cases hk : k = k0
    · subst hk
      simp [sumBy, lookup]
      ring
    · have ih2 : (List.map (fun e => f e.2) (assign m k v)).sum =
          (List.map (fun e => f e.2) m).sum + f v - ((lookup m k).map f).getD 0 := ih
      rw [if_neg hk]
      simp only [sumBy, List.map_cons, List.sum_cons, lookup, if_neg hk, ih2]
      ring

end GoMap

/-! ## The loop body -/

theorem assign_assign {V : Type} (m : GoMap V) (k : GoString) (v v1 : V) :
    GoMap.assign (GoMap.assign m k v) k v1 = GoMap.assign m k v1 := by
  induction m with
  | nil => simp [GoMap.assign]
  | cons e m ih =>
    obtain ⟨k0, u⟩ := e
    by_cases hk : k = k0
    · simp [GoMap.assign, hk]
    · simp [GoMap.assign, hk, ih]

theorem getElem?_split_of_lt (line : GoString) (i : Nat) (h : i < (split tab line).length) :
    (split tab line)[i]? = some (field line i) := by
  unfold field
  rw [List.getD_eq_getElem?_getD, List.getElem?_eq_getElem h]
  rfl

theorem loopBody_succ (w : Nat) (m : YearsMap) (i : Nat) (line : GoString) :
    loopBody w m (i + 1) line =
      if Included line then (yearOf line).map (fun y => addObs w m (y, orbitOf line))
      else some m := by
  unfold loopBody
  simp only [Nat.succ_ne_zero, if_false]
  by_cases hlen : (split tab line).length > 19
  · rw [if_pos hlen, getElem?_split_of_lt line 8 (by omega),
      getElem?_split_of_lt line 19 (by omega)]
    by_cases hd : field line 19 = []
    · have hinc : ¬ Included line := fun h => h.2 hd
      simp [hd, hinc]
    · have hinc : Included line := ⟨hlen, hd⟩
      simp only [ne_eq, hd, not_false_eq_true, if_true, hinc]
      unfold yearOf dateParts
      cases hy : (split slash (field line 19))[2]? with
      | none => rfl
      | some year =>
        simp only [Option.map_some']
        congr 1
        unfold addObs cell orbitOf
        by_cases hk : (GoMap.lookup m year).isSome = true
        · simp only [hk, if_true]
        · have hnone : GoMap.lookup m year = none := by simpa using hk
          simp only [hnone, Option.isSome_none, Bool.false_eq_true, if_false]
          rw [assign_assign]
          simp [GoMap.index, GoMap.lookup_assign, hnone]
  · have hinc : ¬ Included line := fun h => hlen h.1
    rw [if_neg hlen, if_neg hinc]

theorem yearOf_eq_none_iff (line : GoString) :
    yearOf line = none ↔ (dateParts line).length < 3 := by
  unfold yearOf
  rw [List.getElem?_eq_none_iff]
  omega

theorem observation_eq_none_of_not_malformed (line : GoString) (h : ¬ Malformed line) :
    observation line = none ↔ ¬ Included line := by
  unfold observation
  by_cases hinc : Included line
  · have : ¬ (dateParts line).length < 3 := fun h3 => h ⟨hinc, h3⟩
    rw [← yearOf_eq_none_iff] at this
    cases hy : yearOf line with
    | none => exact absurd hy this
    | some y => simp [hinc]
  · simp [hinc]

theorem rangeLoop_succ (w : Nat) (lines : List GoString) :
    ∀ (i : Nat) (m : YearsMap),
      rangeLoop w (i + 1) lines m =
        if ∃ l ∈ lines, Malformed l then none
        else some ((observations lines).foldl (addObs w) m) := by
  induction lines with
  | nil => intro i m; simp [rangeLoop, observations]
  | cons l rest ih =>
    intro i m
    unfold rangeLoop
    rw [loopBody_succ]
    by_cases hinc : Included l
    · rw [if_pos hinc]
      cases hy : yearOf l with
      | none =>
        have hm : Malformed l := ⟨hinc, (yearOf_eq_none_iff l).1 hy⟩
        have : ∃ x ∈ l :: rest, Malformed x := ⟨l, List.mem_cons_self _ _, hm⟩
        rw [if_pos this]
        rfl
      | some y =>
        have hm : ¬ Malformed l := by
          intro h
          have := (yearOf_eq_none_iff l).2 h.2
          rw [hy] at this
          exact Option.some_ne_none _ this
        have hobs : observations (l :: rest) = (y, orbitOf l) :: observations rest := by
          simp [observations, observation, hinc, hy, List.filterMap_cons]
        simp only [Option.map_some', ih, hobs, List.foldl_cons, List.mem_cons,
          exists_eq_or_imp, hm, false_or]
    · have hm : ¬ Malformed l := fun h => hinc h.1
      have hobs : observations (l :: rest) = observations rest := by
        simp [observations, observation, hinc, List.filterMap_cons]
      rw [if_neg hinc]
      simp only [ih, hobs, List.mem_cons, exists_eq_or_imp, hm, false_or]

theorem aggregate_eq (w : Nat) (data : GoString) :
    aggregate w data =
      if ∃ l ∈ dataLines data, Malformed l then none
      else some ((observations (dataLines data)).foldl (addObs w) []) := by
  obtain ⟨header, hsplit⟩ := split_eq_head_cons_dataLines data
  unfold aggregate
  rw [hsplit]
  unfold rangeLoop
  have h0 : loopBody w [] 0 header = some [] := by simp [loopBody]
  rw [h0]
  exact rangeLoop_succ w (dataLines data) 0 []

/-! ## Counting one observation -/

theorem cell_addObs (w : Nat) (m : YearsMap) (ob : GoString × GoString) (y o : GoString) :
    cell (addObs w m ob) y o =
      if (y, o) = ob then wrapInt w (cell m y o + 1) else cell m y o := by
  obtain ⟨y0, o0⟩ := ob
  unfold addObs
  simp only [cell, GoMap.index_assign, Prod.mk.injEq]
  by_cases hy : y = y0
  · subst hy
    by_cases ho : o = o0
    · subst ho
      simp [GoMap.index_assign]
    · simp [GoMap.index_assign, ho]
  · simp [hy]

theorem mem_keys_addObs (w : Nat) (m : YearsMap) (ob : GoString × GoString) (y : GoString) :
    y ∈ GoMap.keys (addObs w m ob) ↔ y = ob.1 ∨ y ∈ GoMap.keys m := by
  unfold addObs
  exact GoMap.mem_keys_assign _ _ _ _

theorem mem_inner_keys_addObs (w : Nat) (m : YearsMap) (ob : GoString × GoString)
    (y o : GoString) :
    o ∈ GoMap.keys (GoMap.index [] (addObs w m ob) y) ↔
      (y, o) = ob ∨ o ∈ GoMap.keys (GoMap.index [] m y) := by
  obtain ⟨y0, o0⟩ := ob
  unfold addObs
  rw [GoMap.index_assign]
  by_cases hy : y = y0
  · subst hy
    simp [GoMap.mem_keys_assign]
  · simp [hy]

theorem uniqueKeys_addObs (w : Nat) (m : YearsMap) (ob : GoString × GoString)
    (h : UniqueKeys m) : UniqueKeys (addObs w m ob) := by
  obtain ⟨y0, o0⟩ := ob
  refine ⟨GoMap.nodup_keys_assign _ _ _ h.1, fun y => ?_⟩
  unfold addObs
  rw [GoMap.index_assign]
  by_cases hy : y = y0
  · subst hy
    simp only [if_true]
    exact GoMap.nodup_keys_assign _ _ _ (h.2 y)
  · simp only [hy, if_false]
    exact h.2 y

theorem sumBy_index_eq (m : YearsMap) (y : GoString) :
    ((GoMap.lookup m y).map (fun counts => GoMap.sumBy (fun n => n) counts)).getD 0 =
      GoMap.sumBy (fun n => n) (GoMap.index [] m y) := by
  unfold GoMap.index
  cases GoMap.lookup m y with
  | none => simp [GoMap.sumBy]
  | some c => simp

theorem tableTotal_addObs (w : Nat) (m : YearsMap) (ob : GoString × GoString) :
    tableTotal (addObs w m ob) =
      tableTotal m + (wrapInt w (cell m ob.1 ob.2 + 1) - cell m ob.1 ob.2) := by
  obtain ⟨y0, o0⟩ := ob
  unfold tableTotal addObs
  rw [GoMap.sumBy_assign, GoMap.sumBy_assign, sumBy_index_eq]
  have hc : ((GoMap.lookup (GoMap.index [] m y0) o0).map (fun n => n)).getD 0 = cell m y0 o0 := by
    unfold cell
    simp [GoMap.index]
  rw [hc]
  ring

/-! ## Counting a list of observations -/

theorem cell_foldl (w : Nat) (obs : List (GoString × GoString)) :
    ∀ (m : YearsMap) (y o : GoString),
      cell (obs.foldl (addObs w) m) y o =
        (fun c => wrapInt w (c + 1))^[obs.count (y, o)] (cell m y o) := by
  induction obs with
  | nil => intro m y o; simp
  | cons ob obs ih =>
    intro m y o
    rw [List.foldl_cons, ih, cell_addObs]
    by_cases h : (y, o) = ob
    · subst h
      simp [Function.iterate_succ_apply]
    · rw [if_neg h, List.count_cons_of_ne h]

theorem mem_keys_foldl (w : Nat) (obs : List (GoString × GoString)) :
    ∀ (m : YearsMap) (y : GoString),
      y ∈ GoMap.keys (obs.foldl (addObs w) m) ↔ y ∈ GoMap.keys m ∨ ∃ o, (y, o) ∈ obs := by
  induction obs with
  | nil => intro m y; simp
  | cons ob obs ih =>
    intro m y
    obtain ⟨y0, o0⟩ := ob
    rw [List.foldl_cons, ih, mem_keys_addObs]
    constructor
    · rintro ((h | h) | ⟨o, h⟩)
      · exact Or.inr ⟨o0, by simp [h]⟩
      · exact Or.inl h
      · exact Or.inr ⟨o, List.mem_cons_of_mem _ h⟩
    · rintro (h | ⟨o, h⟩)
      · exact Or.inl (Or.inr h)
      · rcases List.mem_cons.1 h with h | h
        · have : y = y0 := (Prod.mk.inj h).1
          exact Or.inl (Or.inl this)
        · exact Or.inr ⟨o, h⟩

theorem mem_inner_keys_foldl (w : Nat) (obs : List (GoString × GoString)) :
    ∀ (m : YearsMap) (y o : GoString),
      o ∈ GoMap.keys (GoMap.index [] (obs.foldl (addObs w) m) y) ↔
        o ∈ GoMap.keys (GoMap.index [] m y) ∨ (y, o) ∈ obs := by
  induction obs with
  | nil => intro m y o; simp
  | cons ob obs ih =>
    intro m y o
    rw [List.foldl_cons, ih, mem_inner_keys_addObs, List.mem_cons]
    tauto

theorem uniqueKeys_foldl (w : Nat) (obs : List (GoString × GoString)) :
    ∀ (m : YearsMap), UniqueKeys m → UniqueKeys (obs.foldl (addObs w) m) := by
  induction obs with
  | nil => intro m h; exact h
  | cons ob obs ih =>
    intro m h
    exact ih _ (uniqueKeys_addObs w m ob h)

theorem uniqueKeys_nil : UniqueKeys [] := by
  refine ⟨List.nodup_nil, fun y => ?_⟩
  simp [GoMap.index, GoMap.lookup, GoMap.keys]

/-! ## No overflow on inputs that fit in memory -/

theorem wrapInt_succ (w : Nat) (n : Int) (h0 : 0 ≤ n) (h : n + 1 < 2 ^ (w - 1)) :
    wrapInt w (n + 1) = n + 1 := by
  unfold wrapInt
  cases w with
  | zero =>
    simp at h
    omega
  | succ k =>
    simp only [Nat.add_sub_cancel] at h ⊢
    have hp : (2 : Int) ^ (k + 1) = 2 * 2 ^ k := by ring
    have hpos : (0 : Int) < 2 ^ k := by positivity
    rw [hp, Int.emod_eq_of_lt (by omega) (by omega)]
    ring

theorem iterate_wrapInt (w : Nat) (n : Nat) (h : (n : Int) < 2 ^ (w - 1)) :
    (fun c => wrapInt w (c + 1))^[n] 0 = (n : Int) := by
  induction n with
  | zero => simp
  | succ k ih =>
    have hk : (k : Int) < 2 ^ (w - 1) := by push_cast at h; omega
    rw [Function.iterate_succ_apply', ih hk]
    push_cast at h ⊢
    exact wrapInt_succ w k (by omega) h

theorem cell_foldl_exact (w : Nat) (obs : List (GoString × GoString))
    (h : (obs.length : Int) < 2 ^ (w - 1)) (y o : GoString) :
    cell (obs.foldl (addObs w) []) y o = (obs.count (y, o) : Int) := by
  rw [cell_foldl]
  have hc : cell [] y o = 0 := by simp [cell, GoMap.index, GoMap.lookup]
  rw [hc]
  apply iterate_wrapInt
  have : obs.count (y, o) ≤ obs.length := List.count_le_length _ _
  omega

theorem tableTotal_foldl (w : Nat) (obs : List (GoString × GoString)) :
    ∀ (m : YearsMap) (n : Nat), (∀ y o, 0 ≤ cell m y o ∧ cell m y o ≤ n) →
      ((n + obs.length : Nat) : Int) < 2 ^ (w - 1) →
      tableTotal (obs.foldl (addObs w) m) = tableTotal m + obs.length := by
  induction obs with
  | nil => intro m n _ _; simp
  | cons ob obs ih =>
    intro m n hcell hlen
    have hc := hcell ob.1 ob.2
    have hw : wrapInt w (cell m ob.1 ob.2 + 1) = cell m ob.1 ob.2 + 1 := by
      apply wrapInt_succ w _ hc.1
      simp only [List.length_cons] at hlen
      push_cast at hlen
      omega
    have hcell2 : ∀ y o, 0 ≤ cell (addObs w m ob) y o ∧
        cell (addObs w m ob) y o ≤ ((n + 1 : Nat) : Int) := by
      intro y o
      rw [cell_addObs]
      have hyo := hcell y o
      by_cases e : (y, o) = ob
      · subst e
        rw [if_pos rfl, hw]
        push_cast
        omega
      · rw [if_neg e]
        push_cast
        omega
    have hlen2 : ((n + 1 + obs.length : Nat) : Int) < 2 ^ (w - 1) := by
      simp only [List.length_cons] at hlen
      have e : n + 1 + obs.length = n + (obs.length + 1) := by omega
      rw [e]
      exact hlen
    rw [List.foldl_cons, ih _ (n + 1) hcell2 hlen2, tableTotal_addObs, hw]
    simp only [List.length_cons]
    push_cast
    ring

/-! ## Observations and the counts of the specification -/

theorem observation_eq_some_iff (line : GoString) (y o : GoString) :
    observation line = some (y, o) ↔
      Included line ∧ yearOf line = some y ∧ orbitOf line = o := by
  unfold observation
  by_cases hinc : Included line
  · cases hy : yearOf line with
    | none => simp [hinc]
    | some y1 => simp [hinc]
  · simp [hinc]

theorem count_observations (lines : List GoString) (y o : GoString) :
    (observations lines).count (y, o) =
      lines.countP (fun line => Included line ∧ yearOf line = some y ∧ orbitOf line = o) := by
  induction lines with
  | nil => simp [observations]
  | cons l rest ih =>
    unfold observations at ih ⊢
    rw [List.filterMap_cons, List.countP_cons]
    by_cases h : Included l ∧ yearOf l = some y ∧ orbitOf l = o
    · have hob := (observation_eq_some_iff l y o).2 h
      simp only [hob, List.count_cons_self, ih, h, and_self, decide_True, if_true]
    · have hob : ¬ observation l = some (y, o) := fun e => h ((observation_eq_some_iff l y o).1 e)
      have hd : decide (Included l ∧ yearOf l = some y ∧ orbitOf l = o) = false := by simpa using h
      cases hobs : observation l with
      | none => simp only [ih, hd, Bool.false_eq_true, if_false, Nat.add_zero]
      | some ob =>
        have hne : (y, o) ≠ ob := fun e => hob (by rw [hobs, e])
        simp only [List.count_cons_of_ne hne, ih, hd, Bool.false_eq_true, if_false, Nat.add_zero]

theorem mem_observations (lines : List GoString) (y o : GoString) :
    (y, o) ∈ observations lines ↔
      ∃ l ∈ lines, Included l ∧ yearOf l = some y ∧ orbitOf l = o := by
  unfold observations
  rw [List.mem_filterMap]
  constructor
  · rintro ⟨l, hl, hob⟩
    exact ⟨l, hl, (observation_eq_some_iff l y o).1 hob⟩
  · rintro ⟨l, hl, h⟩
    exact ⟨l, hl, (observation_eq_some_iff l y o).2 h⟩

theorem length_observations_le (lines : List GoString) :
    (observations lines).length ≤ lines.length := by
  unfold observations
  exact List.length_filterMap_le _ _

theorem length_observations (lines : List GoString) (h : ∀ l ∈ lines, ¬ Malformed l) :
    (observations lines).length = lines.countP (fun line => Included line) := by
  induction lines with
  | nil => simp [observations]
  | cons l rest ih =>
    have ih2 := ih (fun x hx => h x (List.mem_cons_of_mem _ hx))
    have hl := h l (List.mem_cons_self _ _)
    unfold observations at ih2 ⊢
    rw [List.filterMap_cons, List.countP_cons]
    by_cases hinc : Included l
    · have hne : observation l ≠ none := fun e =>
        ((observation_eq_none_of_not_malformed l hl).1 e) hinc
      cases hobs : observation l with
      | none => exact absurd hobs hne
      | some ob => simp [ih2, hinc]
    · have hnone := (observation_eq_none_of_not_malformed l hl).2 hinc
      simp [hnone, ih2, hinc]

theorem observations_length_lt (w : Nat) (data : GoString) (hlen : data.length < 2 ^ (w - 1)) :
    ((observations (dataLines data)).length : Int) < 2 ^ (w - 1) := by
  have h1 := length_observations_le (dataLines data)
  have h2 := length_dataLines_le data
  have h3 : (observations (dataLines data)).length < 2 ^ (w - 1) := by omega
  exact_mod_cast h3

theorem aggregate_eq_some (w : Nat) (data : GoString) (t : YearsMap)
    (h : aggregate w data = some t) :
    (∀ l ∈ dataLines data, ¬ Malformed l) ∧
      t = (observations (dataLines data)).foldl (addObs w) [] := by
  rw [aggregate_eq] at h
  by_cases hm : ∃ l ∈ dataLines data, Malformed l
  · rw [if_pos hm] at h
    exact absurd h (by simp)
  · rw [if_neg hm] at h
    refine ⟨fun l hl hmal => hm ⟨l, hl, hmal⟩, ?_⟩
    exact (Option.some.inj h).symm

theorem uniqueKeys_of_aggregate (w : Nat) (data : GoString) (t : YearsMap)
    (h : aggregate w data = some t) : UniqueKeys t := by
  rw [(aggregate_eq_some w data t h).2]
  exact uniqueKeys_foldl w _ [] uniqueKeys_nil

theorem mem_keys_of_aggregate (w : Nat) (data : GoString) (t : YearsMap)
    (h : aggregate w data = some t) (y : GoString) :
    y ∈ GoMap.keys t ↔ ∃ l ∈ dataLines data, Included l ∧ yearOf l = some y := by
  rw [(aggregate_eq_some w data t h).2, mem_keys_foldl]
  simp only [GoMap.keys, List.map_nil, List.not_mem_nil, false_or, mem_observations]
  constructor
  · rintro ⟨o, l, hl, h1, h2, _⟩
    exact ⟨l, hl, h1, h2⟩
  · rintro ⟨l, hl, h1, h2⟩
    exact ⟨orbitOf l, l, hl, h1, h2, rfl⟩

theorem cell_of_aggregate (w : Nat) (data : GoString) (hlen : data.length < 2 ^ (w - 1))
    (t : YearsMap) (h : aggregate w data = some t) (y o : GoString) :
    cell t y o = (cellCount data y o : Int) := by
  rw [(aggregate_eq_some w data t h).2,
    cell_foldl_exact w _ (observations_length_lt w data hlen), count_observations]
  rfl

/-! ## The order on strings and `sort.Strings` -/

theorem strLess_irrefl (a : GoString) : strLess a a = false := by
  induction a with
  | nil => rfl
  | cons x xs ih => simp [strLess, ih]

theorem strLess_asymm : ∀ (a b : GoString), strLess a b = true → strLess b a = false := by
  intro a
  induction a with
  | nil => intro b _; cases b <;> rfl
  | cons x xs ih =>
    intro b h
    cases b with
    | nil => simp [strLess] at h
    | cons y ys =>
      simp only [strLess] at h ⊢
      by_cases h1 : x < y
      · have h2 : ¬ y < x := not_lt_of_gt h1
        simp [h2, h1]
      · by_cases h2 : y < x
        · simp [h1, h2] at h
        · simp only [h1, h2, if_false] at h ⊢
          exact ih ys h

theorem strLess_connected :
    ∀ (a b : GoString), strLess a b = false → strLess b a = false → a = b := by
  intro a
  induction a with
  | nil =>
    intro b h _
    cases b with
    | nil => rfl
    | cons y ys => simp [strLess] at h
  | cons x xs ih =>
    intro b h h'
    cases b with
    | nil => simp [strLess] at h'
    | cons y ys =>
      simp only [strLess] at h h'
      by_cases h1 : x < y
      · simp [h1] at h
      · by_cases h2 : y < x
        · simp [h2] at h'
        · simp only [h1, h2, if_false] at h h'
          have hxy : x = y := le_antisymm (not_lt.1 h2) (not_lt.1 h1)
          rw [hxy, ih ys h h']

theorem strLess_trans :
    ∀ (a b c : GoString), strLess a b = true → strLess b c = true → strLess a c = true := by
  intro a
  induction a with
  | nil =>
    intro b c hab hbc
    cases c with
    | nil => cases b <;> simp [strLess] at hbc
    | cons z zs => rfl
  | cons x xs ih =>
    intro b c hab hbc
    cases b with
    | nil => simp [strLess] at hab
    | cons y ys =>
      cases c with
      | nil => simp [strLess] at hbc
      | cons z zs =>
        simp only [strLess] at hab hbc ⊢
        by_cases hxy : x < y
        · by_cases hyz : y < z
          · simp [lt_trans hxy hyz]
          · by_cases hzy : z < y
            · simp [hyz, hzy] at hbc
            · have e : y = z := le_antisymm (not_lt.1 hzy) (not_lt.1 hyz)
              subst e
              simp [hxy]
        · by_cases hyx : y < x
          · simp [hxy, hyx] at hab
          · have e : x = y := le_antisymm (not_lt.1 hyx) (not_lt.1 hxy)
            subst e
            simp only [hxy, if_false] at hab
            by_cases hxz : x < z
            · simp [hxz]
            · by_cases hzx : z < x
              · simp [hxz, hzx] at hbc
              · simp only [hxz, hzx, if_false] at hbc ⊢
                exact ih ys zs hab hbc

instance instIsTotalStrLE : IsTotal GoString StrLE where
  total a b := by
    unfold StrLE
    cases h : strLess b a with
    | false => exact Or.inl rfl
    | true => exact Or.inr (strLess_asymm b a h)

instance instIsAntisymmStrLE : IsAntisymm GoString StrLE where
  antisymm a b hab hba := strLess_connected a b hba hab

instance instIsTransStrLE : IsTrans GoString StrLE where
  trans a b c hab hbc := by
    unfold StrLE at hab hbc ⊢
    cases hca : strLess c a with
    | false => rfl
    | true =>
      cases hab2 : strLess a b with
      | false =>
        have e : a = b := strLess_connected a b hab2 hab
        subst e
        rw [hca] at hbc
        exact absurd hbc (by simp)
      | true =>
        have := strLess_trans c a b hca hab2
        rw [this] at hbc
        exact absurd hbc (by simp)

theorem sortStrings_perm (l : List GoString) : (sortStrings l).Perm l :=
  List.perm_insertionSort StrLE l

theorem sortStrings_sorted (l : List GoString) : (sortStrings l).Sorted StrLE :=
  List.sorted_insertionSort StrLE l

/-- Any ascending rearrangement of `l` is the list that `sortStrings` computes, so the
result of `sort.Strings` does not depend on the sorting algorithm. -/
theorem sortStrings_unique (l l1 : List GoString) (hp : l1.Perm l) (hs : l1.Sorted StrLE) :
    l1 = sortStrings l :=
  List.eq_of_perm_of_sorted (hp.trans (sortStrings_perm l).symm) hs (sortStrings_sorted l)

theorem sortStrings_eq_of_perm (l1 l2 : List GoString) (hp : l1.Perm l2) :
    sortStrings l1 = sortStrings l2 :=
  sortStrings_unique l2 (sortStrings l1) ((sortStrings_perm l1).trans hp) (sortStrings_sorted l1)

theorem sortStrings_strictlyAscending (l : List GoString) (hn : l.Nodup) :
    StrictlyAscending (sortStrings l) := by
  have hs : (sortStrings l).Pairwise StrLE := sortStrings_sorted l
  have hn2 : (sortStrings l).Pairwise (fun a b => a ≠ b) :=
    (sortStrings_perm l).nodup_iff.2 hn
  unfold StrictlyAscending
  refine (hs.and hn2).imp ?_
  intro a b hab
  cases h : strLess a b with
  | true => rfl
  | false => exact absurd (strLess_connected a b h hab.1) hab.2

theorem foldl_append_singleton {α : Type} (l : List α) :
    ∀ acc : List α, l.foldl (fun acc x => acc ++ [x]) acc = acc ++ l := by
  induction l with
  | nil => intro acc; simp
  | cons x xs ih => intro acc; simp [ih]

theorem yearValues_eq (order : List GoString) : yearValues order = sortStrings order := by
  unfold yearValues
  rw [foldl_append_singleton]
  rfl

theorem generateBarItems_eq (years : List GoString) (yearMap : YearsMap) (s : GoString) :
    generateBarItems years yearMap s = years.map (fun y => BarData.mk (cell yearMap y s)) := by
  unfold generateBarItems
  have h : ∀ (l : List GoString) (acc : List BarData),
      l.foldl (fun dataPoints y => dataPoints ++ [BarData.mk (cell yearMap y s)]) acc =
        acc ++ l.map (fun y => BarData.mk (cell yearMap y s)) := by
    intro l
    induction l with
    | nil => intro acc; simp
    | cons x xs ih => intro acc; simp [ih]
  rw [h]
  rfl

/-! ## Lines of a text -/

theorem split_of_not_mem (sep : Fin 256) (s : GoString) (h : sep ∉ s) : split sep s = [s] := by
  induction s with
  | nil => rfl
  | cons c cs ih =>
    have hc : ¬ c = sep := fun e => h (by simp [e])
    have hcs : sep ∉ cs := fun e => h (List.mem_cons_of_mem _ e)
    unfold split
    rw [if_neg hc, ih hcs]

theorem split_append_sep (sep : Fin 256) (s r : GoString) (h : sep ∉ s) :
    split sep (s ++ sep :: r) = s :: split sep r := by
  induction s with
  | nil => simp [split]
  | cons c cs ih =>
    have hc : ¬ c = sep := fun e => h (by simp [e])
    have hcs : sep ∉ cs := fun e => h (List.mem_cons_of_mem _ e)
    rw [List.cons_append]
    simp only [split, if_neg hc, ih hcs]

theorem not_mem_of_mem_split (sep : Fin 256) (s : GoString) :
    ∀ l ∈ split sep s, sep ∉ l := by
  induction s with
  | nil => intro l hl; simp [split] at hl; simp [hl]
  | cons c cs ih =>
    intro l hl
    unfold split at hl
    by_cases hc : c = sep
    · rw [if_pos hc] at hl
      rcases List.mem_cons.1 hl with e | e
      · simp [e]
      · exact ih l e
    · rw [if_neg hc] at hl
      cases hs : split sep cs with
      | nil => exact absurd hs (split_ne_nil sep cs)
      | cons h t =>
        rw [hs] at hl ih
        rcases List.mem_cons.1 hl with e | e
        · have hh := ih h (List.mem_cons_self _ _)
          rw [e]
          intro hmem
          rcases List.mem_cons.1 hmem with e2 | e2
          · exact hc e2.symm
          · exact hh e2
        · exact ih l (List.mem_cons_of_mem _ e)

theorem split_joinLines (ls : List GoString) (hne : ls ≠ [])
    (h : ∀ l ∈ ls, newline ∉ l) : split newline (joinLines ls) = ls := by
  induction ls with
  | nil => exact absurd rfl hne
  | cons l rest ih =>
    cases rest with
    | nil => exact split_of_not_mem newline l (h l (List.mem_cons_self _ _))
    | cons l2 rest2 =>
      have ih2 := ih (by simp) (fun x hx => h x (List.mem_cons_of_mem _ hx))
      unfold joinLines
      rw [split_append_sep newline l _ (h l (List.mem_cons_self _ _)), ih2]

theorem joinLines_split (s : GoString) : joinLines (split newline s) = s := by
  induction s with
  | nil => rfl
  | cons c cs ih =>
    unfold split
    cases hs : split newline cs with
    | nil => exact absurd hs (split_ne_nil newline cs)
    | cons h t =>
      rw [hs] at ih
      by_cases hc : c = newline
      · rw [if_pos hc]
        unfold joinLines
        rw [ih, hc]
        rfl
      · rw [if_neg hc]
        cases t with
        | nil =>
          simp only [joinLines] at ih ⊢
          rw [ih]
        | cons t1 t2 =>
          simp only [joinLines] at ih ⊢
          rw [List.cons_append, ih]

/-! ## Outcomes -/

theorem aggregate_none_iff (w : Nat) (data : GoString) :
    aggregate w data = none ↔ ∃ l ∈ dataLines data, Malformed l := by
  rw [aggregate_eq]
  by_cases hm : ∃ l ∈ dataLines data, Malformed l
  · simp [hm]
  · rw [if_neg hm]
    simp [hm]

theorem aggregate_of_dataLines_eq (w : Nat) (d1 d2 : GoString)
    (h : dataLines d1 = dataLines d2) : aggregate w d1 = aggregate w d2 := by
  rw [aggregate_eq, aggregate_eq, h]

theorem yearValues_eq_of_sameKeys (t1 t2 : YearsMap) (h1 : UniqueKeys t1) (h2 : UniqueKeys t2)
    (hk : ∀ y, y ∈ GoMap.keys t1 ↔ y ∈ GoMap.keys t2) (order1 order2 : List GoString)
    (ho1 : RangeOrder t1 order1) (ho2 : RangeOrder t2 order2) :
    yearValues order1 = yearValues order2 := by
  rw [yearValues_eq, yearValues_eq]
  apply sortStrings_eq_of_perm
  have hp : (GoMap.keys t1).Perm (GoMap.keys t2) := (List.perm_ext_iff_of_nodup h1.1 h2.1).2 hk
  exact (ho1.trans hp).trans ho2.symm

theorem createBarChart_congr (years : List GoString) (t1 t2 : YearsMap)
    (hc : ∀ y o, cell t1 y o = cell t2 y o) :
    createBarChart years t1 = createBarChart years t2 := by
  unfold createBarChart
  simp only [generateBarItems_eq, hc]

theorem sameOutcome_some (t1 t2 : YearsMap) (h1 : UniqueKeys t1) (h2 : UniqueKeys t2)
    (hm : SameMapping t1 t2) : SameOutcome (some t1) (some t2) := by
  refine ⟨by simp, ?_⟩
  intro a b ha hb
  cases ha
  cases hb
  refine ⟨hm, fun order1 order2 ho1 ho2 => ?_⟩
  have hy := yearValues_eq_of_sameKeys t1 t2 h1 h2 hm.1 order1 order2 ho1 ho2
  refine ⟨hy, ?_⟩
  rw [hy]
  exact createBarChart_congr _ t1 t2 hm.2.2

theorem sameOutcome_of_perm (w : Nat) (d1 d2 : GoString)
    (hp : (dataLines d1).Perm (dataLines d2)) :
    SameOutcome (aggregate w d1) (aggregate w d2) := by
  have hmal : (∃ l ∈ dataLines d1, Malformed l) ↔ (∃ l ∈ dataLines d2, Malformed l) := by
    constructor
    · rintro ⟨l, hl, h⟩
      exact ⟨l, hp.mem_iff.1 hl, h⟩
    · rintro ⟨l, hl, h⟩
      exact ⟨l, hp.mem_iff.2 hl, h⟩
  cases hr1 : aggregate w d1 with
  | none =>
    have h2 : aggregate w d2 = none :=
      (aggregate_none_iff w d2).2 (hmal.1 ((aggregate_none_iff w d1).1 hr1))
    rw [h2]
    exact ⟨Iff.rfl, fun t1 t2 h => absurd h (by simp)⟩
  | some t1 =>
    cases hr2 : aggregate w d2 with
    | none =>
      have h1 : aggregate w d1 = none :=
        (aggregate_none_iff w d1).2 (hmal.2 ((aggregate_none_iff w d2).1 hr2))
      rw [hr1] at h1
      exact absurd h1 (by simp)
    | some t2 =>
      apply sameOutcome_some t1 t2 (uniqueKeys_of_aggregate w d1 t1 hr1)
        (uniqueKeys_of_aggregate w d2 t2 hr2)
      have hmem : ∀ y o, (y, o) ∈ observations (dataLines d1) ↔
          (y, o) ∈ observations (dataLines d2) := by
        intro y o
        rw [mem_observations, mem_observations]
        constructor
        · rintro ⟨l, hl, h⟩
          exact ⟨l, hp.mem_iff.1 hl, h⟩
        · rintro ⟨l, hl, h⟩
          exact ⟨l, hp.mem_iff.2 hl, h⟩
      rw [(aggregate_eq_some w d1 t1 hr1).2, (aggregate_eq_some w d2 t2 hr2).2]
      refine ⟨fun y => ?_, fun y o => ?_, fun y o => ?_⟩
      · rw [mem_keys_foldl, mem_keys_foldl]
        simp only [hmem]
      · rw [mem_inner_keys_foldl, mem_inner_keys_foldl, hmem]
      · rw [cell_foldl, cell_foldl, count_observations, count_observations, hp.countP_eq]

theorem decimalValue_lt (a b : GoString) (ha : FourDigits a) (hb : FourDigits b)
    (h : strLess a b = true) : decimalValue a < decimalValue b := by
  obtain ⟨hla, hda⟩ := ha
  obtain ⟨hlb, hdb⟩ := hb
  rcases a with _ | ⟨a0, _ | ⟨a1, _ | ⟨a2, _ | ⟨a3, _ | ⟨a4, ra⟩⟩⟩⟩⟩ <;> simp at hla
  rcases b with _ | ⟨b0, _ | ⟨b1, _ | ⟨b2, _ | ⟨b3, _ | ⟨b4, rb⟩⟩⟩⟩⟩ <;> simp at hlb
  simp only [List.mem_cons, List.mem_singleton, forall_eq_or_imp, forall_eq, List.not_mem_nil,
    false_imp_iff, implies_true, and_true] at hda hdb
  simp only [strLess, Fin.lt_def] at h
  simp only [decimalValue, List.foldl_cons, List.foldl_nil]
  split_ifs at h <;> omega

theorem cell_eq_lookup (m : YearsMap) (y o : GoString) :
    cell m y o =
      match GoMap.lookup m y with
      | some counts =>
        (match GoMap.lookup counts o with
          | some n => n
          | none => 0)
      | none => 0 := by
  unfold cell GoMap.index
  cases GoMap.lookup m y with
  | none => rfl
  | some counts =>
    cases h : GoMap.lookup counts o with
    | none => simp [h]
    | some n => simp [h]

theorem malformed_iff (l : GoString) :
    Malformed l ↔
      19 < (split tab l).length ∧ field l 19 ≠ [] ∧ (split slash (field l 19)).length < 3 := by
  unfold Malformed Included dateParts
  tauto

/-! ## The claims -/

/-- C1: cell counts are exact.  For every input text (a Go string, so its length is
below `2 ^ (w - 1)` for the width `w` of `int`) in which every data line with more than
19 fields and a non-empty field 19 has at least three "/"-separated components in
field 19, the loop of `main` succeeds, and for every year `y` and orbit class `o` the
entry `yearsMap[y][o]` (0 when absent) is the number of data lines with more than 19
fields, a non-empty field 19, component 2 of field 19 equal to `y` and field 8 equal
to `o`. -/
theorem cell_counts_exact (w : Nat) (data : GoString) (hlen : data.length < 2 ^ (w - 1))
    (hdates : ∀ l ∈ dataLines data, Included l → 3 ≤ (dateParts l).length) :
    ∃ t, aggregate w data = some t ∧
      ∀ y o, cell t y o = (cellCount data y o : Int) := by
  have hm : ¬ ∃ l ∈ dataLines data, Malformed l := by
    rintro ⟨l, hl, hinc, h3⟩
    have := hdates l hl hinc
    omega
  refine ⟨(observations (dataLines data)).foldl (addObs w) [], ?_, ?_⟩
  · rw [aggregate_eq, if_neg hm]
  · intro y o
    exact cell_of_aggregate w data hlen _ (by rw [aggregate_eq, if_neg hm]) y o

/-- The example of the specification for C1: the header line and the two rows give
exactly the table with the one year 2005 and the counts LEO 1 and GEO 1. -/
theorem cell_counts_exact_witness :
    exampleData.length < 2 ^ (64 - 1) ∧
    (∀ l ∈ dataLines exampleData, Included l → 3 ≤ (dateParts l).length) ∧
    (∃ t, aggregate 64 exampleData = some t ∧
      ∀ y o, cell t y o = (cellCount exampleData y o : Int)) ∧
    aggregate 64 exampleData = some [(ofString "2005", [(leo, 1), (geo, 1)])] :=
  ⟨by decide, by decide, cell_counts_exact 64 exampleData (by decide) (by decide), by decide⟩

theorem mem_yearValues_of_aggregate (w : Nat) (data : GoString) (t : YearsMap)
    (order : List GoString) (hagg : aggregate w data = some t) (hord : RangeOrder t order)
    (y : GoString) :
    y ∈ yearValues order ↔ ∃ l ∈ dataLines data, Included l ∧ yearOf l = some y := by
  rw [yearValues_eq, (sortStrings_perm order).mem_iff, hord.mem_iff]
  exact mem_keys_of_aggregate w data t hagg y

theorem nodup_of_rangeOrder (w : Nat) (data : GoString) (t : YearsMap)
    (order : List GoString) (hagg : aggregate w data = some t) (hord : RangeOrder t order) :
    order.Nodup :=
  hord.nodup_iff.2 (uniqueKeys_of_aggregate w data t hagg).1

/-- C2: the sorted year list is the sorted set of years.  On every input on which
aggregation succeeds, and for every order in which the range loop visits the keys of
`yearsMap`, the list `yearValues` after `sort.Strings` is strictly ascending in the
byte-wise order, has no duplicates, has exactly the keys of `yearsMap` as elements, and
these are exactly the years of the data lines with more than 19 fields and a non-empty
field 19. -/
theorem sorted_years_exact (w : Nat) (data : GoString) (t : YearsMap) (order : List GoString)
    (hagg : aggregate w data = some t) (hord : RangeOrder t order) :
    StrictlyAscending (yearValues order) ∧ (yearValues order).Nodup ∧
    (∀ y, y ∈ yearValues order ↔ y ∈ GoMap.keys t) ∧
    (∀ y, y ∈ GoMap.keys t ↔ ∃ l ∈ dataLines data, Included l ∧ yearOf l = some y) := by
  have hn : order.Nodup := nodup_of_rangeOrder w data t order hagg hord
  refine ⟨?_, ?_, fun y => ?_, fun y => ?_⟩
  · rw [yearValues_eq]
    exact sortStrings_strictlyAscending order hn
  · rw [yearValues_eq]
    exact (sortStrings_perm order).nodup_iff.2 hn
  · rw [yearValues_eq, (sortStrings_perm order).mem_iff]
    exact hord.mem_iff
  · exact mem_keys_of_aggregate w data t hagg y

/-- An instance of C2: rows of 2005, 1999 and 2005 again, the keys visited in the order
2005, 1999, give the year list 1999, 2005. -/
theorem sorted_years_exact_witness :
    aggregate 64 twoYearData =
      some [(ofString "2005", [(leo, 1), (geo, 1)]), (ofString "1999", [(geo, 1)])] ∧
    RangeOrder [(ofString "2005", [(leo, 1), (geo, 1)]), (ofString "1999", [(geo, 1)])]
      [ofString "2005", ofString "1999"] ∧
    yearValues [ofString "2005", ofString "1999"] = [ofString "1999", ofString "2005"] ∧
    StrictlyAscending (yearValues [ofString "2005", ofString "1999"]) :=
  ⟨by decide, by decide, by decide,
    (sorted_years_exact 64
      twoYearData
      [(ofString "2005", [(leo, 1), (geo, 1)]), (ofString "1999", [(geo, 1)])]
      [ofString "2005", ofString "1999"] (by decide) (by decide)).1⟩

/-- C3: dense re-projection with zero fill.  For every list of years, every table and
every series name, `generateBarItems` returns one data point per year, the value at
position `i` being the stored count when the year `years[i]` and the class are both
present in the table and 0 otherwise; `createBarChart` uses the years as X axis and adds
exactly the series LEO, MEO, GEO, Elliptical, each made by `generateBarItems` from the
same years and so as long as the X axis. -/
theorem generateBarItems_dense (years : List GoString) (yearMap : YearsMap) (s : GoString) :
    (generateBarItems years yearMap s).length = years.length ∧
    (∀ i : Nat, ((generateBarItems years yearMap s)[i]?).map BarData.value =
      (years[i]?).map (fun y =>
        match GoMap.lookup yearMap y with
        | some counts =>
          (match GoMap.lookup counts s with
            | some n => n
            | none => 0)
        | none => 0)) ∧
    (createBarChart years yearMap).xAxis = years ∧
    (createBarChart years yearMap).series.map Prod.fst =
      [ofString "LEO", ofString "MEO", ofString "GEO", ofString "Elliptical"] ∧
    (∀ p ∈ (createBarChart years yearMap).series,
      p.2 = generateBarItems years yearMap p.1 ∧
      p.2.length = (createBarChart years yearMap).xAxis.length) := by
  refine ⟨by simp [generateBarItems_eq], fun i => ?_, rfl, rfl, ?_⟩
  · rw [generateBarItems_eq, List.getElem?_map]
    cases years[i]? with
    | none => rfl
    | some y => simp [cell_eq_lookup]
  · intro p hp
    simp only [createBarChart, List.mem_cons, List.mem_singleton, List.not_mem_nil,
      or_false] at hp
    rcases hp with h | h | h | h <;> subst h <;> simp [createBarChart, generateBarItems_eq]

/-- An instance of C3: over the years 1999, 2005, 2010 and the table with LEO 1 under
2005 and MEO 1 under 1999, the series LEO is 0, 1, 0 (class absent, present, year
absent). -/
theorem generateBarItems_dense_witness :
    generateBarItems [ofString "1999", ofString "2005", ofString "2010"]
        [(ofString "2005", [(leo, 1)]), (ofString "1999", [(meo, 1)])] leo =
      [BarData.mk 0, BarData.mk 1, BarData.mk 0] ∧
    (generateBarItems [ofString "1999", ofString "2005", ofString "2010"]
        [(ofString "2005", [(leo, 1)]), (ofString "1999", [(meo, 1)])] leo).length =
      [ofString "1999", ofString "2005", ofString "2010"].length :=
  ⟨by decide,
    (generateBarItems_dense [ofString "1999", ofString "2005", ofString "2010"]
      [(ofString "2005", [(leo, 1)]), (ofString "1999", [(meo, 1)])] leo).1⟩

/-- C4: a malformed date aborts, and nothing else does.  The loop of `main` panics if
and only if some data line has more than 19 fields, a non-empty field 19 and fewer than
three "/"-separated components in field 19; otherwise it completes with a table.  A
field has fewer than three components exactly when it holds fewer than two "/". -/
theorem malformed_date_aborts (w : Nat) (data : GoString) :
    (aggregate w data = none ↔
      ∃ l ∈ dataLines data, 19 < (split tab l).length ∧ field l 19 ≠ [] ∧
        (split slash (field l 19)).length < 3) ∧
    ((aggregate w data).isSome = true ↔
      ¬ ∃ l ∈ dataLines data, 19 < (split tab l).length ∧ field l 19 ≠ [] ∧
        (split slash (field l 19)).length < 3) ∧
    (∀ d : GoString, (split slash d).length < 3 ↔ d.count slash < 2) := by
  have h1 : aggregate w data = none ↔
      ∃ l ∈ dataLines data, 19 < (split tab l).length ∧ field l 19 ≠ [] ∧
        (split slash (field l 19)).length < 3 := by
    rw [aggregate_none_iff]
    simp only [malformed_iff]
  refine ⟨h1, ?_, fun d => ?_⟩
  · rw [← h1]
    cases aggregate w data <;> simp
  · rw [length_split]
    omega

/-- An instance of C4: a row of 20 fields whose field 19 is 2005, after a valid row,
makes the loop panic. -/
theorem malformed_date_aborts_witness :
    aggregate 64 (joinLines [ofString "Name", rowLeo2005, rowBadDate, rowGeo2005]) = none :=
  (malformed_date_aborts 64 (joinLines [ofString "Name", rowLeo2005, rowBadDate, rowGeo2005])).1.2
    ⟨rowBadDate, by decide, by decide, by decide, by decide⟩

/-- C5: total count conservation.  On every input (a Go string, so shorter than
`2 ^ (w - 1)`) on which aggregation succeeds, the table stores no year twice and under
no year an orbit class twice, and the sum of all stored counts is the number of data
lines with more than 19 fields and a non-empty field 19. -/
theorem total_count_conserved (w : Nat) (data : GoString) (t : YearsMap)
    (hlen : data.length < 2 ^ (w - 1)) (hagg : aggregate w data = some t) :
    UniqueKeys t ∧ tableTotal t = (includedCount data : Int) := by
  refine ⟨uniqueKeys_of_aggregate w data t hagg, ?_⟩
  obtain ⟨hm, ht⟩ := aggregate_eq_some w data t hagg
  have hcell0 : ∀ y o, 0 ≤ cell ([] : YearsMap) y o ∧ cell ([] : YearsMap) y o ≤ ((0 : Nat) : Int) := by
    intro y o
    simp [cell, GoMap.index, GoMap.lookup]
  have hb : ((0 + (observations (dataLines data)).length : Nat) : Int) < 2 ^ (w - 1) := by
    rw [Nat.zero_add]
    exact observations_length_lt w data hlen
  rw [ht, tableTotal_foldl w _ [] 0 hcell0 hb, length_observations _ hm]
  simp [tableTotal, GoMap.sumBy, includedCount]

/-- An instance of C5: the two rows of the example give a table whose counts sum to 2. -/
theorem total_count_conserved_witness :
    exampleData.length < 2 ^ (64 - 1) ∧
    aggregate 64 exampleData = some [(ofString "2005", [(leo, 1), (geo, 1)])] ∧
    tableTotal [(ofString "2005", [(leo, 1), (geo, 1)])] = 2 ∧
    includedCount exampleData = 2 ∧
    tableTotal [(ofString "2005", [(leo, 1), (geo, 1)])] = (includedCount exampleData : Int) :=
  ⟨by decide, by decide, by decide, by decide,
    (total_count_conserved 64 exampleData [(ofString "2005", [(leo, 1), (geo, 1)])]
      (by decide) (by decide)).2⟩

/-- C6: the header line is skipped unconditionally.  Two texts `h1 ++ rest` and
`h2 ++ rest` that differ only in the text `h1`, `h2` before the first "\n" give the
same result of the loop of `main` (both panic, or both give the same table), hence the
same outcome: the same sorted year list and chart. -/
theorem header_skipped (w : Nat) (h1 h2 rest : GoString) (hh1 : newline ∉ h1)
    (hh2 : newline ∉ h2) (hrest : rest = [] ∨ ∃ r, rest = newline :: r) :
    aggregate w (h1 ++ rest) = aggregate w (h2 ++ rest) ∧
    SameOutcome (aggregate w (h1 ++ rest)) (aggregate w (h2 ++ rest)) := by
  have hd : dataLines (h1 ++ rest) = dataLines (h2 ++ rest) := by
    unfold dataLines
    rcases hrest with e | ⟨r, e⟩
    · subst e
      simp [split_of_not_mem newline h1 hh1, split_of_not_mem newline h2 hh2]
    · subst e
      rw [split_append_sep newline h1 r hh1, split_append_sep newline h2 r hh2]
      rfl
  exact ⟨aggregate_of_dataLines_eq w _ _ hd, sameOutcome_of_perm w _ _ (hd ▸ List.Perm.refl _)⟩

/-- The instances of C6: a first line with 20 fields and a valid date contributes no
count, and a first line with 20 fields and a date without "/" does not abort; with the
same second line both give the table with the one count of that second line. -/
theorem header_skipped_witness :
    newline ∉ rowLeo2005 ∧ newline ∉ rowBadDate ∧
    aggregate 64 (rowLeo2005 ++ newline :: rowGeo2005) =
      some [(ofString "2005", [(geo, 1)])] ∧
    aggregate 64 (rowBadDate ++ newline :: rowGeo2005) =
      some [(ofString "2005", [(geo, 1)])] ∧
    aggregate 64 (rowLeo2005 ++ newline :: rowGeo2005) =
      aggregate 64 (rowBadDate ++ newline :: rowGeo2005) :=
  ⟨by decide, by decide, by decide, by decide,
    (header_skipped 64 rowLeo2005 rowBadDate (newline :: rowGeo2005) (by decide) (by decide)
      (Or.inr ⟨rowGeo2005, rfl⟩)).1⟩

theorem aggregate_insert (w : Nat) (d1 d2 : GoString) (A B : List GoString) (L : GoString)
    (h1 : dataLines d1 = A ++ L :: B) (h2 : dataLines d2 = A ++ B) (hL : ¬ Included L) :
    aggregate w d1 = aggregate w d2 := by
  have hob : observation L = none := by simp [observation, hL]
  have hmal : ¬ Malformed L := fun h => hL h.1
  rw [aggregate_eq, aggregate_eq, h1, h2]
  have e1 : observations (A ++ L :: B) = observations (A ++ B) := by
    simp [observations, List.filterMap_append, List.filterMap_cons, hob]
  have e2 : (∃ l ∈ A ++ L :: B, Malformed l) ↔ (∃ l ∈ A ++ B, Malformed l) := by
    constructor
    · rintro ⟨l, hl, h⟩
      rcases List.mem_append.1 hl with h3 | h3
      · exact ⟨l, List.mem_append_left _ h3, h⟩
      · rcases List.mem_cons.1 h3 with h4 | h4
        · exact absurd (h4 ▸ h) hmal
        · exact ⟨l, List.mem_append_right _ h4, h⟩
    · rintro ⟨l, hl, h⟩
      rcases List.mem_append.1 hl with h3 | h3
      · exact ⟨l, List.mem_append_left _ h3, h⟩
      · exact ⟨l, List.mem_append_right _ (List.mem_cons_of_mem _ h3), h⟩
  rw [e1]
  simp only [e2]

/-- C7: short rows and rows with an empty launch date are dropped without effect and
without error.  For every text, every line `L` without "\n" that has at most 19 fields,
or more than 19 fields and an empty field 19, and every line position `p >= 1`, the text
with `L` inserted as line `p` gives the same result of the loop of `main` (the same
panic or the same table), hence the same outcome: the same sorted year list and
chart. -/
theorem dropped_rows_no_effect (w : Nat) (data L : GoString) (p : Nat) (hL : newline ∉ L)
    (hdrop : (split tab L).length ≤ 19 ∨ (19 < (split tab L).length ∧ field L 19 = []))
    (hp : 1 ≤ p) :
    aggregate w
        (joinLines ((split newline data).take p ++ L :: (split newline data).drop p)) =
      aggregate w data ∧
    SameOutcome
      (aggregate w
        (joinLines ((split newline data).take p ++ L :: (split newline data).drop p)))
      (aggregate w data) := by
  have hinc : ¬ Included L := by
    rintro ⟨h19, hne⟩
    rcases hdrop with h | h
    · omega
    · exact hne h.2
  obtain ⟨header, hs⟩ := split_eq_head_cons_dataLines data
  obtain ⟨q, rfl⟩ : ∃ q, p = q + 1 := ⟨p - 1, by omega⟩
  have hlines : ∀ l ∈ split newline data, newline ∉ l := not_mem_of_mem_split newline data
  have hnew : (split newline data).take (q + 1) ++ L :: (split newline data).drop (q + 1) =
      header :: ((dataLines data).take q ++ L :: (dataLines data).drop q) := by
    rw [hs]
    simp
  have hsplit : split newline
      (joinLines ((split newline data).take (q + 1) ++ L :: (split newline data).drop (q + 1))) =
      header :: ((dataLines data).take q ++ L :: (dataLines data).drop q) := by
    rw [← hnew]
    apply split_joinLines
    · simp
    · intro l hl
      rcases List.mem_append.1 hl with h | h
      · exact hlines l (List.mem_of_mem_take h)
      · rcases List.mem_cons.1 h with h | h
        · rw [h]; exact hL
        · exact hlines l (List.mem_of_mem_drop h)
  have hd1 : dataLines
      (joinLines ((split newline data).take (q + 1) ++ L :: (split newline data).drop (q + 1))) =
      (dataLines data).take q ++ L :: (dataLines data).drop q := by
    unfold dataLines at hsplit ⊢
    rw [hsplit]
    rfl
  have hd2 : dataLines data = (dataLines data).take q ++ (dataLines data).drop q :=
    (List.take_append_drop q _).symm
  have heq := aggregate_insert w _ data _ _ L hd1 hd2 hinc
  refine ⟨heq, ?_⟩
  rw [heq]
  exact sameOutcome_of_perm w data data (List.Perm.refl _)

/-- The instances of C7: a row of 15 fields inserted as line 1 of the example, and a
row of 20 fields with an empty field 19 inserted as line 2, leave the table of the
example as it is. -/
theorem dropped_rows_no_effect_witness :
    (newline ∉ rowShort ∧ (split tab rowShort).length = 15 ∧
      aggregate 64 (joinLines ((split newline exampleData).take 1 ++
        rowShort :: (split newline exampleData).drop 1)) = aggregate 64 exampleData) ∧
    (newline ∉ rowNoDate ∧ (split tab rowNoDate).length = 20 ∧ field rowNoDate 19 = [] ∧
      aggregate 64 (joinLines ((split newline exampleData).take 2 ++
        rowNoDate :: (split newline exampleData).drop 2)) = aggregate 64 exampleData) ∧
    aggregate 64 (joinLines ((split newline exampleData).take 2 ++
        rowNoDate :: (split newline exampleData).drop 2)) =
      some [(ofString "2005", [(leo, 1), (geo, 1)])] :=
  ⟨⟨by decide, by decide,
      (dropped_rows_no_effect 64 exampleData rowShort 1 (by decide) (Or.inl (by decide))
        (by decide)).1⟩,
    ⟨by decide, by decide, by decide,
      (dropped_rows_no_effect 64 exampleData rowNoDate 2 (by decide)
        (Or.inr ⟨by decide, by decide⟩) (by decide)).1⟩,
    by decide⟩

theorem lookup_series (years : List GoString) (t : YearsMap) (c : GoString)
    (hc : c ∈ chartClasses) :
    GoMap.lookup (createBarChart years t).series c = some (generateBarItems years t c) := by
  have h1 : ¬ meo = leo := by decide
  have h2 : ¬ geo = leo := by decide
  have h3 : ¬ geo = meo := by decide
  have h4 : ¬ elliptical = leo := by decide
  have h5 : ¬ elliptical = meo := by decide
  have h6 : ¬ elliptical = geo := by decide
  simp only [chartClasses, List.mem_cons, List.mem_singleton, List.not_mem_nil, or_false] at hc
  rcases hc with h | h | h | h <;> subst h <;>
    simp [createBarChart, GoMap.lookup, h1, h2, h3, h4, h5, h6]

/-- C8: only the four fixed orbit classes reach the chart.  On every input (a Go
string, so shorter than `2 ^ (w - 1)`) on which aggregation succeeds, for each class
`c` of LEO, MEO, GEO, Elliptical the chart has a series named `c`, as long as the sorted
year list, whose value at position `i` is the number of data lines with more than 19
fields, a non-empty field 19, the `i`-th sorted year as year and field 8 exactly `c`
(so the chart is the sorted keys with these four series of counts, whatever order the
range loop visits the keys in);
these numbers are the same when counted over only the lines whose field 8 is one of the
four names, so a line with any other field 8 adds to no value. -/
theorem chart_series_counts (w : Nat) (data : GoString) (t : YearsMap) (order : List GoString)
    (hlen : data.length < 2 ^ (w - 1)) (hagg : aggregate w data = some t)
    (hord : RangeOrder t order) :
    createBarChart (yearValues order) t =
      { xAxis := sortStrings (GoMap.keys t)
        series := chartClasses.map
          (fun c => (c, (sortStrings (GoMap.keys t)).map
            (fun y => BarData.mk (cellCount data y c)))) } ∧
    ∀ c ∈ chartClasses,
      (∃ series, GoMap.lookup (createBarChart (yearValues order) t).series c = some series ∧
        series.length = (yearValues order).length ∧
        ∀ i : Nat, (series[i]?).map BarData.value =
          ((yearValues order)[i]?).map (fun y => (cellCount data y c : Int))) ∧
      ∀ y, cellCount data y c =
        cellCountOf ((dataLines data).filter (fun l => orbitOf l ∈ chartClasses)) y c := by
  refine ⟨?_, ?_⟩
  · have hy : yearValues order = sortStrings (GoMap.keys t) := by
      rw [yearValues_eq]
      exact sortStrings_eq_of_perm _ _ hord
    rw [hy]
    simp [createBarChart, chartClasses, generateBarItems_eq, cell_of_aggregate w data hlen t hagg]
  intro c hc
  refine ⟨⟨generateBarItems (yearValues order) t c, lookup_series _ t c hc, ?_, fun i => ?_⟩,
    fun y => ?_⟩
  · simp [generateBarItems_eq]
  · rw [generateBarItems_eq, List.getElem?_map]
    cases (yearValues order)[i]? with
    | none => rfl
    | some y => simp [cell_of_aggregate w data hlen t hagg]
  · unfold cellCount cellCountOf
    rw [List.countP_filter]
    apply List.countP_congr
    intro l _
    simp only [Bool.and_eq_true, decide_eq_true_eq]
    constructor
    · rintro ⟨h1, h2, h3⟩
      exact ⟨⟨h1, h2, h3⟩, h3 ▸ hc⟩
    · rintro ⟨h, _⟩
      exact h

/-- An instance of C8: with rows LEO 2005, "LEO " 2005 and MEO 1999 the row with the
trailing space is stored in the table but the series are LEO 0, 1 and MEO 1, 0 and
GEO, Elliptical 0, 0 over the years 1999, 2005. -/
theorem chart_series_counts_witness :
    spacedData.length < 2 ^ (64 - 1) ∧
    aggregate 64 spacedData =
      some [(ofString "2005", [(leo, 1), (ofString "LEO ", 1)]), (ofString "1999", [(meo, 1)])] ∧
    createBarChart (yearValues [ofString "2005", ofString "1999"])
        [(ofString "2005", [(leo, 1), (ofString "LEO ", 1)]), (ofString "1999", [(meo, 1)])] =
      { xAxis := [ofString "1999", ofString "2005"]
        series := [(leo, [BarData.mk 0, BarData.mk 1]), (meo, [BarData.mk 1, BarData.mk 0]),
          (geo, [BarData.mk 0, BarData.mk 0]), (elliptical, [BarData.mk 0, BarData.mk 0])] } ∧
    (∃ series, GoMap.lookup (createBarChart (yearValues [ofString "2005", ofString "1999"])
        [(ofString "2005", [(leo, 1), (ofString "LEO ", 1)]),
          (ofString "1999", [(meo, 1)])]).series leo = some series ∧
      series.length = (yearValues [ofString "2005", ofString "1999"]).length ∧
      ∀ i : Nat, (series[i]?).map BarData.value =
        ((yearValues [ofString "2005", ofString "1999"])[i]?).map
          (fun y => (cellCount spacedData y leo : Int))) :=
  ⟨by decide, by decide, by decide,
    ((chart_series_counts 64 spacedData
      [(ofString "2005", [(leo, 1), (ofString "LEO ", 1)]), (ofString "1999", [(meo, 1)])]
      [ofString "2005", ofString "1999"] (by decide) (by decide) (by decide)).2
      leo (by decide)).1⟩

/-- C9: the byte-wise order of the years is chronological for four-digit years.  On
every input on which aggregation succeeds and in which the year of every data line with
more than 19 fields and a non-empty field 19 consists of exactly four ASCII decimal
digits, the sorted year list is strictly ascending when its elements are read as
natural numbers. -/
theorem years_chronological (w : Nat) (data : GoString) (t : YearsMap)
    (order : List GoString) (hagg : aggregate w data = some t) (hord : RangeOrder t order)
    (hdigits : ∀ l ∈ dataLines data, Included l → ∀ y ∈ yearOf l, FourDigits y) :
    ((yearValues order).map decimalValue).Pairwise (fun m n => m < n) := by
  have hasc : StrictlyAscending (yearValues order) := by
    rw [yearValues_eq]
    exact sortStrings_strictlyAscending order (nodup_of_rangeOrder w data t order hagg hord)
  have hfour : ∀ y ∈ yearValues order, FourDigits y := by
    intro y hy
    obtain ⟨l, hl, hinc, hyear⟩ := (mem_yearValues_of_aggregate w data t order hagg hord y).1 hy
    exact hdigits l hl hinc y hyear
  rw [List.pairwise_map]
  unfold StrictlyAscending at hasc
  refine hasc.imp_of_mem ?_
  intro a b ha hb hab
  exact decimalValue_lt a b (hfour a ha) (hfour b hb) hab

/-- An instance of C9: the years 2005 and 1999, visited in this order, are sorted to
the numbers 1999, 2005. -/
theorem years_chronological_witness :
    aggregate 64 spacedData =
      some [(ofString "2005", [(leo, 1), (ofString "LEO ", 1)]), (ofString "1999", [(meo, 1)])] ∧
    (∀ l ∈ dataLines spacedData, Included l → ∀ y ∈ yearOf l, FourDigits y) ∧
    (yearValues [ofString "2005", ofString "1999"]).map decimalValue = [1999, 2005] ∧
    ((yearValues [ofString "2005", ofString "1999"]).map decimalValue).Pairwise
      (fun m n => m < n) :=
  ⟨by decide, by decide, by decide,
    years_chronological 64 spacedData
      [(ofString "2005", [(leo, 1), (ofString "LEO ", 1)]), (ofString "1999", [(meo, 1)])]
      [ofString "2005", ofString "1999"] (by decide) (by decide) (by decide)⟩

/-- C10: the result does not depend on the order of the data rows.  Two texts with the
same first line whose remaining lines are permutations of each other give the same
outcome: both panic or both succeed, and on success the tables are equal as mappings,
the sorted year lists are equal as sequences and the charts, so the four series, are
equal. -/
theorem row_order_irrelevant (w : Nat) (d1 d2 header : GoString) (ls1 ls2 : List GoString)
    (h1 : split newline d1 = header :: ls1) (h2 : split newline d2 = header :: ls2)
    (hp : ls1.Perm ls2) :
    SameOutcome (aggregate w d1) (aggregate w d2) := by
  apply sameOutcome_of_perm
  unfold dataLines
  rw [h1, h2]
  exact hp

/-- An instance of C10: the three rows of `spacedData` in two orders give tables that
store their entries in different orders and agree as mappings. -/
theorem row_order_irrelevant_witness :
    split newline spacedData =
      ofString "Name\tOrbit" :: [rowLeo2005, rowLeoSpace2005, rowMeo1999] ∧
    split newline permutedData =
      ofString "Name\tOrbit" :: [rowMeo1999, rowLeoSpace2005, rowLeo2005] ∧
    aggregate 64 spacedData =
      some [(ofString "2005", [(leo, 1), (ofString "LEO ", 1)]), (ofString "1999", [(meo, 1)])] ∧
    aggregate 64 permutedData =
      some [(ofString "1999", [(meo, 1)]), (ofString "2005", [(ofString "LEO ", 1), (leo, 1)])] ∧
    SameOutcome (aggregate 64 spacedData) (aggregate 64 permutedData) :=
  ⟨by decide, by decide, by decide, by decide,
    row_order_irrelevant 64 spacedData permutedData (ofString "Name\tOrbit")
      [rowLeo2005, rowLeoSpace2005, rowMeo1999] [rowMeo1999, rowLeoSpace2005, rowLeo2005]
      (by decide) (by decide) (by decide)⟩

end Makechart
